import Mathlib

/-!
Verification development for the price-prediction feature pipeline in
`src/streaml.py`.  The Python source is shallowly embedded: pandas rows
become a `Row` structure, columns become `List ℚ`, pandas aggregates
(`median`, `mean`, `mode`) become explicit functions on `List ℚ`
(returning `Option` where pandas yields NaN / raises on empty input),
and Python's `int()` truncation becomes `pyInt`.
-/

namespace Streaml

/-- Constant from `src/streaml.py` line 20: `SALES_VOLUME_MIN = 14.0`. -/
def SALES_VOLUME_MIN : ℚ := 14

/-- Constant from `src/streaml.py` line 21: `SALES_VOLUME_MAX = 133.0`. -/
def SALES_VOLUME_MAX : ℚ := 133

/-- Constant from `src/streaml.py` line 22: `STOCK_QUANTITY_MIN = 7.0`. -/
def STOCK_QUANTITY_MIN : ℚ := 7

/-- Constant from `src/streaml.py` line 23: `STOCK_QUANTITY_MAX = 141.0`. -/
def STOCK_QUANTITY_MAX : ℚ := 141

/-- Python's `int()` applied to a rational: truncation toward zero. -/
def pyInt (q : ℚ) : ℤ := if 0 ≤ q then ⌊q⌋ else ⌈q⌉

/-- `denormalize` from `src/streaml.py` lines 36-37:
`int(value * (max_val - min_val) + min_val)`. -/
def denormalize (value min_val max_val : ℚ) : ℤ :=
  pyInt (value * (max_val - min_val) + min_val)

/-- `normalize` from `src/streaml.py` lines 133-134:
`(value - min_val) / (max_val - min_val)`. -/
def normalize (value min_val max_val : ℚ) : ℚ :=
  (value - min_val) / (max_val - min_val)

/-- One row of the historical dataset (`train_mmsc.csv` columns used by the
code). Numeric columns are modelled as rationals. -/
structure Row where
  Product_Name : String
  Category : String
  Status : String
  Stock_Quantity : ℚ
  Sales_Volume : ℚ
  Reorder_Level : ℚ
  Reorder_Quantity : ℚ
  Inventory_Turnover_Rate : ℚ
  Average_Price_Per_Category : ℚ
  Average_Price_Per_Product_Name : ℚ
  Price_to_Sales_Ratio : ℚ
  Day_of_Week : ℚ
  Month : ℚ
deriving DecidableEq, Repr

/-- The `typical_values` dictionary built by `get_typical_values`
(`src/streaml.py` lines 40-51): ten entries, the first two already
denormalized to integers by `denormalize`. -/
structure TypicalValues where
  Stock_Quantity : ℤ
  Sales_Volume : ℤ
  Reorder_Level : ℚ
  Reorder_Quantity : ℚ
  Inventory_Turnover_Rate : ℚ
  Average_Price_Per_Category : ℚ
  Average_Price_Per_Product_Name : ℚ
  Price_to_Sales_Ratio : ℚ
  Day_of_Week : ℚ
  Month : ℚ
deriving DecidableEq, Repr

/-- Insert a value into a sorted list, keeping it sorted ascending. -/
def insertSorted (x : ℚ) : List ℚ → List ℚ
  | [] => [x]
  | y :: ys => if x ≤ y then x :: y :: ys else y :: insertSorted x ys

/-- Sort a list of rationals ascending (insertion sort). -/
def sortAsc (l : List ℚ) : List ℚ := l.foldr insertSorted []

/-- pandas `Series.median()`: sort ascending, take the middle element (odd
length) or the mean of the two middle elements (even length); NaN (here
`none`) on an empty series. -/
def median (l : List ℚ) : Option ℚ :=
  match l with
  | [] => none
  | _ =>
    let s := sortAsc l
    let n := s.length
    if n % 2 = 1 then some (s.getD (n / 2) 0)
    else some ((s.getD (n / 2 - 1) 0 + s.getD (n / 2) 0) / 2)

/-- pandas `Series.mean()`: arithmetic mean; NaN (here `none`) on an empty
series. -/
def mean (l : List ℚ) : Option ℚ :=
  if l.isEmpty then none else some (l.sum / l.length)

/-- Least element of a list (`none` on empty). -/
def leastOf : List ℚ → Option ℚ
  | [] => none
  | x :: xs =>
    match leastOf xs with
    | none => some x
    | some m => some (if x ≤ m then x else m)

/-- pandas `Series.mode()[0]`: `Series.mode()` returns the most frequent
values sorted in ascending order, and `[0]` takes the first, i.e. the
smallest value of maximal multiplicity; indexing an empty mode series
raises (here `none`). -/
def modeVal (l : List ℚ) : Option ℚ :=
  leastOf (l.filter (fun x => l.all (fun y => decide (l.count y ≤ l.count x))))

/-- The exact filter of `src/streaml.py` lines 28-29: rows matching both
the product name and the category. -/
def exactFilter (data : List Row) (product_name category : String) : List Row :=
  data.filter (fun r => r.Product_Name == product_name && r.Category == category)

/-- The fallback filter of `src/streaml.py` line 33: rows matching the
category alone. -/
def catFilter (data : List Row) (category : String) : List Row :=
  data.filter (fun r => r.Category == category)

/-- The cohort `get_typical_values` aggregates over (`src/streaml.py`
lines 28-33): the exact filter, or the category filter when the exact
filter is empty. -/
def cohort (data : List Row) (product_name category : String) : List Row :=
  let product_data := exactFilter data product_name category
  if product_data.length = 0 then catFilter data category else product_data

/-- `get_typical_values` from `src/streaml.py` lines 26-52.  Aggregates
that pandas leaves undefined on an empty cohort (NaN medians/means fed to
`int()`, `mode()[0]` on an empty series — both runtime errors in Python)
surface here as `none`. -/
def get_typical_values (data : List Row) (product_name category : String) :
    Option TypicalValues := do
  let pd := cohort data product_name category
  let sq ← median (pd.map Row.Stock_Quantity)
  let sv ← median (pd.map Row.Sales_Volume)
  let rl ← median (pd.map Row.Reorder_Level)
  let rq ← median (pd.map Row.Reorder_Quantity)
  let itr ← mean (pd.map Row.Inventory_Turnover_Rate)
  let apc ← mean (pd.map Row.Average_Price_Per_Category)
  let appn ← mean (pd.map Row.Average_Price_Per_Product_Name)
  let ptsr ← mean (pd.map Row.Price_to_Sales_Ratio)
  let dow ← modeVal (pd.map Row.Day_of_Week)
  let mon ← modeVal (pd.map Row.Month)
  pure
    { Stock_Quantity := denormalize sq STOCK_QUANTITY_MIN STOCK_QUANTITY_MAX
      Sales_Volume := denormalize sv SALES_VOLUME_MIN SALES_VOLUME_MAX
      Reorder_Level := rl
      Reorder_Quantity := rq
      Inventory_Turnover_Rate := itr
      Average_Price_Per_Category := apc
      Average_Price_Per_Product_Name := appn
      Price_to_Sales_Ratio := ptsr
      Day_of_Week := dow
      Month := mon }

/-- The categorical feature names passed to the CatBoost `Pool` in
`predict_price` (`src/streaml.py` line 56). -/
def cat_features : List String := ["Product_Name", "Status", "Category"]

/-- The 13 column names of the `features` DataFrame assembled in `main`
(`src/streaml.py` lines 137-151), in construction order. -/
def featureNames : List String :=
  ["Product_Name", "Stock_Quantity", "Reorder_Level", "Reorder_Quantity",
   "Sales_Volume", "Inventory_Turnover_Rate", "Status", "Category",
   "Average_Price_Per_Category", "Average_Price_Per_Product_Name",
   "Price_to_Sales_Ratio", "Day_of_Week", "Month"]

/-- The assembled feature record (`features` DataFrame of `src/streaml.py`
lines 137-151): 3 categorical string fields and 10 numeric fields. -/
structure FeatureRecord where
  Product_Name : String
  Stock_Quantity : ℚ
  Reorder_Level : ℚ
  Reorder_Quantity : ℚ
  Sales_Volume : ℚ
  Inventory_Turnover_Rate : ℚ
  Status : String
  Category : String
  Average_Price_Per_Category : ℚ
  Average_Price_Per_Product_Name : ℚ
  Price_to_Sales_Ratio : ℚ
  Day_of_Week : ℚ
  Month : ℚ
deriving DecidableEq, Repr

/-- Assembly of the `features` DataFrame in `main` (`src/streaml.py`
lines 137-151): the user-held stock quantity and sales volume (integers
from `st.number_input`) are normalized with their constants, the selected
day/month quantized values pass through, and the remaining numerics are
copied from `typical_values`. -/
def buildFeatures (product_name status category : String)
    (stock_quantity sales_volume : ℤ) (day_of_week month : ℚ)
    (tv : TypicalValues) : FeatureRecord :=
  { Product_Name := product_name
    Stock_Quantity := normalize (stock_quantity : ℚ) STOCK_QUANTITY_MIN STOCK_QUANTITY_MAX
    Reorder_Level := tv.Reorder_Level
    Reorder_Quantity := tv.Reorder_Quantity
    Sales_Volume := normalize (sales_volume : ℚ) SALES_VOLUME_MIN SALES_VOLUME_MAX
    Inventory_Turnover_Rate := tv.Inventory_Turnover_Rate
    Status := status
    Category := category
    Average_Price_Per_Category := tv.Average_Price_Per_Category
    Average_Price_Per_Product_Name := tv.Average_Price_Per_Product_Name
    Price_to_Sales_Ratio := tv.Price_to_Sales_Ratio
    Day_of_Week := day_of_week
    Month := month }

/-- The `weekdays` dictionary keys of `src/streaml.py` lines 67-75, in the
ascending order produced by `sorted(weekdays.keys())` (line 118).  The
literals are 6-decimal-place roundings of k/6. -/
def day_keys : List ℚ :=
  [0, 166667/1000000, 333333/1000000, 1/2, 666667/1000000, 833333/1000000, 1]

/-- The `weekdays` dictionary values in ascending key order. -/
def weekday_labels : List String :=
  ["Понедельник", "Вторник", "Среда", "Четверг", "Пятница", "Суббота",
   "Воскресенье"]

/-- The `months` dictionary keys of `src/streaml.py` lines 77-90, in the
ascending order produced by `sorted(months.keys())` (line 125).  The
literals are 6-decimal-place roundings of k/11. -/
def month_keys : List ℚ :=
  [0, 90909/1000000, 181818/1000000, 272727/1000000, 363636/1000000,
   454545/1000000, 545455/1000000, 636364/1000000, 727273/1000000,
   818182/1000000, 909091/1000000, 1]

/-- The `months` dictionary values in ascending key order. -/
def month_labels : List String :=
  ["Январь", "Февраль", "Март", "Апрель", "Май", "Июнь", "Июль", "Август",
   "Сентябрь", "Октябрь", "Ноябрь", "Декабрь"]

/-- Python's `min(range(len(l)), key=lambda i: l[i])`: the first index of a
minimal element (`min` keeps the earliest element attaining the minimum). -/
def argminFirst : List ℚ → Nat
  | [] => 0
  | [_] => 0
  | x :: y :: rest =>
    let j := argminFirst (y :: rest)
    if x ≤ (y :: rest).getD j 0 then 0 else j + 1

/-- `default_day_idx` from `src/streaml.py` line 119:
`min(range(len(day_keys)), key=lambda i: abs(day_keys[i] - typical))`. -/
def default_day_idx (typical : ℚ) : Nat :=
  argminFirst (day_keys.map (fun k => |k - typical|))

/-- `default_month_idx` from `src/streaml.py` line 126. -/
def default_month_idx (typical : ℚ) : Nat :=
  argminFirst (month_keys.map (fun k => |k - typical|))

/-- A sample dataset row (category "Beverages", product "Cola") used to
instantiate the proved theorems on concrete inputs. -/
def rowA : Row :=
  { Product_Name := "Cola", Category := "Beverages", Status := "Active",
    Stock_Quantity := 1/2, Sales_Volume := 1/2, Reorder_Level := 1,
    Reorder_Quantity := 1, Inventory_Turnover_Rate := 1,
    Average_Price_Per_Category := 1, Average_Price_Per_Product_Name := 1,
    Price_to_Sales_Ratio := 1, Day_of_Week := 1/2, Month := 1/2 }

/-- A second "Cola"/"Beverages" row whose calendar values differ from
`rowA`, producing ties in the mode computation. -/
def rowB : Row := { rowA with Day_of_Week := 0, Month := 0 }

/-- A row of a different category ("Dairy"), used to build a dataset in
which the "Beverages" category filter yields zero rows. -/
def rowC : Row := { rowA with Category := "Dairy" }

/-! Helper lemmas about the embedded aggregates. -/

lemma cohort_eq (data : List Row) (p c : String) :
    cohort data p c =
      if (exactFilter data p c).length = 0 then catFilter data c
      else exactFilter data p c := rfl

lemma argminFirst_cons_cons (x y : ℚ) (rest : List ℚ) :
    argminFirst (x :: y :: rest) =
      if x ≤ (y :: rest).getD (argminFirst (y :: rest)) 0 then 0
      else argminFirst (y :: rest) + 1 := rfl

lemma argminFirst_lt_length : ∀ (l : List ℚ), l ≠ [] → argminFirst l < l.length := by
  intro l
  induction l with
  | nil => intro h; exact absurd rfl h
  | cons x xs ih =>
    intro _
    cases xs with
    | nil => simp [argminFirst]
    | cons y rest =>
      have h2 : argminFirst (y :: rest) < (y :: rest).length := ih (by simp)
      rw [argminFirst_cons_cons]
      split
      · simp
      · simpa using Nat.succ_lt_succ h2

lemma argminFirst_le : ∀ (l : List ℚ) (i : Nat), i < l.length →
    l.getD (argminFirst l) 0 ≤ l.getD i 0 := by
  intro l
  induction l with
  | nil => intro i hi; simp at hi
  | cons x xs ih =>
    intro i hi
    cases xs with
    | nil =>
      have hi0 : i = 0 := by simpa using hi
      subst hi0
      simp [argminFirst]
    | cons y rest =>
      rw [argminFirst_cons_cons]
      by_cases hc : x ≤ (y :: rest).getD (argminFirst (y :: rest)) 0
      · rw [if_pos hc]
        cases i with
        | zero => exact le_refl _
        | succ k =>
          have hk : k < (y :: rest).length := by simpa using hi
          calc (x :: y :: rest).getD 0 0 = x := rfl
            _ ≤ (y :: rest).getD (argminFirst (y :: rest)) 0 := hc
            _ ≤ (y :: rest).getD k 0 := ih k hk
            _ = (x :: y :: rest).getD (k + 1) 0 := rfl
      · rw [if_neg hc]
        push_neg at hc
        cases i with
        | zero =>
          show (y :: rest).getD (argminFirst (y :: rest)) 0 ≤ x
          exact le_of_lt hc
        | succ k =>
          have hk : k < (y :: rest).length := by simpa using hi
          show (y :: rest).getD (argminFirst (y :: rest)) 0 ≤ (y :: rest).getD k 0
          exact ih k hk

lemma argminFirst_strict_before : ∀ (l : List ℚ) (i : Nat), i < argminFirst l →
    l.getD (argminFirst l) 0 < l.getD i 0 := by
  intro l
  induction l with
  | nil => intro i hi; simp [argminFirst] at hi
  | cons x xs ih =>
    intro i hi
    cases xs with
    | nil => simp [argminFirst] at hi
    | cons y rest =>
      rw [argminFirst_cons_cons] at hi ⊢
      by_cases hc : x ≤ (y :: rest).getD (argminFirst (y :: rest)) 0
      · rw [if_pos hc] at hi
        omega
      · rw [if_neg hc] at hi ⊢
        push_neg at hc
        cases i with
        | zero => exact hc
        | succ k =>
          have hk : k < argminFirst (y :: rest) := by omega
          show (y :: rest).getD (argminFirst (y :: rest)) 0 < (y :: rest).getD k 0
          exact ih k hk

lemma leastOf_isSome : ∀ (l : List ℚ), l ≠ [] → ∃ m, leastOf l = some m := by
  intro l
  cases l with
  | nil => intro h; exact absurd rfl h
  | cons x xs =>
    intro _
    cases h : leastOf xs with
    | none => exact ⟨x, by simp [leastOf, h]⟩
    | some m => exact ⟨if x ≤ m then x else m, by simp [leastOf, h]⟩

lemma leastOf_mem : ∀ (l : List ℚ) (m : ℚ), leastOf l = some m → m ∈ l := by
  intro l
  induction l with
  | nil => intro m h; simp [leastOf] at h
  | cons x xs ih =>
    intro m h
    simp only [leastOf] at h
    cases hx : leastOf xs with
    | none => rw [hx] at h; simp at h; simp [h]
    | some b =>
      rw [hx] at h
      simp at h
      by_cases hxb : x ≤ b
      · rw [if_pos hxb] at h; simp [← h]
      · rw [if_neg hxb] at h
        right
        exact h ▸ ih b hx

lemma leastOf_eq_none : ∀ (l : List ℚ), leastOf l = none → l = [] := by
  intro l
  cases l with
  | nil => intro _; rfl
  | cons x xs =>
    intro h
    exfalso
    simp only [leastOf] at h
    cases hx : leastOf xs <;> rw [hx] at h <;> simp at h

lemma leastOf_le : ∀ (l : List ℚ) (m : ℚ), leastOf l = some m →
    ∀ y ∈ l, m ≤ y := by
  intro l
  induction l with
  | nil => intro m h; simp [leastOf] at h
  | cons x xs ih =>
    intro m h y hy
    simp only [leastOf] at h
    cases hx : leastOf xs with
    | none =>
      have hxs : xs = [] := leastOf_eq_none xs hx
      subst hxs
      rw [hx] at h
      simp at h hy
      exact le_of_eq ((hy.trans h).symm)
    | some b =>
      rw [hx] at h
      simp at h
      rcases List.mem_cons.mp hy with hyx | hyxs
      · subst hyx
        rw [← h]
        split
        · exact le_refl _
        · next hxb => exact le_of_lt (lt_of_not_le hxb)
      · have hb : b ≤ y := ih b hx y hyxs
        rw [← h]
        split
        · next hxb => exact le_trans hxb hb
        · exact hb

lemma exists_argmax_mem (f : ℚ → Nat) :
    ∀ (l : List ℚ), l ≠ [] → ∃ x ∈ l, ∀ y ∈ l, f y ≤ f x := by
  intro l
  induction l with
  | nil => intro h; exact absurd rfl h
  | cons x xs ih =>
    intro _
    cases xs with
    | nil => exact ⟨x, by simp⟩
    | cons z zs =>
      obtain ⟨m, hm, hmax⟩ := ih (by simp)
      by_cases hcmp : f m ≤ f x
      · refine ⟨x, by simp, ?_⟩
        intro y hy
        rcases List.mem_cons.mp hy with h1 | h2
        · subst h1; exact le_refl _
        · exact le_trans (hmax y h2) hcmp
      · refine ⟨m, by simp [hm], ?_⟩
        intro y hy
        rcases List.mem_cons.mp hy with h1 | h2
        · subst h1; exact le_of_lt (lt_of_not_le hcmp)
        · exact hmax y h2

lemma modeVal_isSome (l : List ℚ) (h : l ≠ []) : ∃ m, modeVal l = some m := by
  obtain ⟨x, hx, hmax⟩ := exists_argmax_mem (fun v => l.count v) l h
  apply leastOf_isSome
  intro hfil
  have : x ∈ l.filter (fun v => l.all (fun y => decide (l.count y ≤ l.count v))) := by
    rw [List.mem_filter]
    refine ⟨hx, ?_⟩
    rw [List.all_eq_true]
    intro y hy
    exact decide_eq_true (hmax y hy)
  rw [hfil] at this
  simp at this

lemma modeVal_spec (l : List ℚ) (m : ℚ) (h : modeVal l = some m) :
    m ∈ l ∧ (∀ y ∈ l, l.count y ≤ l.count m) ∧
    (∀ y ∈ l, l.count y = l.count m → m ≤ y) := by
  have hmem := leastOf_mem _ _ h
  rw [List.mem_filter] at hmem
  obtain ⟨hml, hall⟩ := hmem
  rw [List.all_eq_true] at hall
  have hcnt : ∀ y ∈ l, l.count y ≤ l.count m := by
    intro y hy
    exact of_decide_eq_true (hall y hy)
  refine ⟨hml, hcnt, ?_⟩
  intro y hy hceq
  apply leastOf_le _ _ h
  rw [List.mem_filter]
  refine ⟨hy, ?_⟩
  rw [List.all_eq_true]
  intro z hz
  exact decide_eq_true (hceq ▸ hcnt z hz)

lemma median_isSome (l : List ℚ) (h : l ≠ []) : ∃ q, median l = some q := by
  cases l with
  | nil => exact absurd rfl h
  | cons x xs =>
    simp only [median]
    split
    · exact ⟨_, rfl⟩
    · exact ⟨_, rfl⟩

lemma mean_isSome (l : List ℚ) (h : l ≠ []) : ∃ q, mean l = some q := by
  cases l with
  | nil => exact absurd rfl h
  | cons x xs => exact ⟨_, rfl⟩

lemma get_typical_values_shape (data : List Row) (p c : String)
    (h : cohort data p c ≠ []) :
    ∃ sq sv rl rq itr apc appn ptsr dow mon,
      median ((cohort data p c).map Row.Stock_Quantity) = some sq ∧
      modeVal ((cohort data p c).map Row.Day_of_Week) = some dow ∧
      modeVal ((cohort data p c).map Row.Month) = some mon ∧
      get_typical_values data p c = some
        { Stock_Quantity := denormalize sq STOCK_QUANTITY_MIN STOCK_QUANTITY_MAX
          Sales_Volume := denormalize sv SALES_VOLUME_MIN SALES_VOLUME_MAX
          Reorder_Level := rl
          Reorder_Quantity := rq
          Inventory_Turnover_Rate := itr
          Average_Price_Per_Category := apc
          Average_Price_Per_Product_Name := appn
          Price_to_Sales_Ratio := ptsr
          Day_of_Week := dow
          Month := mon } := by
  have hmap : ∀ f : Row → ℚ, (cohort data p c).map f ≠ [] := by
    intro f hnil
    exact h (List.map_eq_nil_iff.mp hnil)
  obtain ⟨sq, hsq⟩ := median_isSome _ (hmap Row.Stock_Quantity)
  obtain ⟨sv, hsv⟩ := median_isSome _ (hmap Row.Sales_Volume)
  obtain ⟨rl, hrl⟩ := median_isSome _ (hmap Row.Reorder_Level)
  obtain ⟨rq, hrq⟩ := median_isSome _ (hmap Row.Reorder_Quantity)
  obtain ⟨itr, hitr⟩ := mean_isSome _ (hmap Row.Inventory_Turnover_Rate)
  obtain ⟨apc, hapc⟩ := mean_isSome _ (hmap Row.Average_Price_Per_Category)
  obtain ⟨appn, happn⟩ := mean_isSome _ (hmap Row.Average_Price_Per_Product_Name)
  obtain ⟨ptsr, hptsr⟩ := mean_isSome _ (hmap Row.Price_to_Sales_Ratio)
  obtain ⟨dow, hdow⟩ := modeVal_isSome _ (hmap Row.Day_of_Week)
  obtain ⟨mon, hmon⟩ := modeVal_isSome _ (hmap Row.Month)
  refine ⟨sq, sv, rl, rq, itr, apc, appn, ptsr, dow, mon, hsq, hdow, hmon, ?_⟩
  simp [get_typical_values, hsq, hsv, hrl, hrq, hitr, hapc, happn, hptsr,
    hdow, hmon]

lemma getD_map_abs (keys : List ℚ) (t : ℚ) (i : Nat) (hi : i < keys.length) :
    (keys.map (fun k => |k - t|)).getD i 0 = |keys.getD i 0 - t| := by
  simp [List.getD_eq_getElem?_getD, List.getElem?_map, List.getElem?_eq_getElem hi]

lemma nearest_first_spec (keys : List ℚ) (t : ℚ) (hne : keys ≠ [])
    (hmono : ∀ i j : Nat, i ≤ j → j < keys.length →
      keys.getD i 0 ≤ keys.getD j 0) (j : Nat) (hj : j < keys.length) :
    |keys.getD (argminFirst (keys.map (fun k => |k - t|))) 0 - t| ≤
      |keys.getD j 0 - t| ∧
    (|keys.getD j 0 - t| =
        |keys.getD (argminFirst (keys.map (fun k => |k - t|))) 0 - t| →
      keys.getD (argminFirst (keys.map (fun k => |k - t|))) 0 ≤
        keys.getD j 0) := by
  have hdsne : keys.map (fun k => |k - t|) ≠ [] := by
    intro hnil
    exact hne (List.map_eq_nil_iff.mp hnil)
  have hclt : argminFirst (keys.map (fun k => |k - t|)) < keys.length := by
    have := argminFirst_lt_length (keys.map (fun k => |k - t|)) hdsne
    simpa using this
  constructor
  · have hle := argminFirst_le (keys.map (fun k => |k - t|)) j (by simpa using hj)
    rwa [getD_map_abs keys t _ hclt, getD_map_abs keys t j hj] at hle
  · intro heq
    have hcj : argminFirst (keys.map (fun k => |k - t|)) ≤ j := by
      by_contra hjc
      push_neg at hjc
      have hs := argminFirst_strict_before (keys.map (fun k => |k - t|)) j hjc
      rw [getD_map_abs keys t _ hclt, getD_map_abs keys t j hj] at hs
      rw [heq] at hs
      exact lt_irrefl _ hs
    exact hmono _ j hcj hj

/-! Claim theorems. -/

/-- Claim C1 (counterexample): the range table does NOT assign StockQuantity
the range [14, 133] and SalesVolume the range [7, 141]; the code's constants
give StockQuantity [7, 141], and denormalizing a median of 0.5 with them
yields 74, not 73. -/
theorem c1_counterexample :
    ¬ (STOCK_QUANTITY_MIN = 14 ∧ STOCK_QUANTITY_MAX = 133 ∧
       SALES_VOLUME_MIN = 7 ∧ SALES_VOLUME_MAX = 141) ∧
    denormalize (1/2) STOCK_QUANTITY_MIN STOCK_QUANTITY_MAX = 74 ∧
    (74 : ℤ) ≠ 73 :=
  of_decide_eq_true (by with_unfolding_all  rfl)

/-- Claim C1 (amended): the range table assigns StockQuantity the range
[7, 141] and SalesVolume the range [14, 133]; consequently, for a cohort
whose StockQuantity normalized values have median 0.5, the resolver's
denormalized typical StockQuantity equals int(0.5*(141-7)+7) = 74. -/
theorem c1_amended (data : List Row) (p c : String)
    (h : cohort data p c ≠ [])
    (hmed : median ((cohort data p c).map Row.Stock_Quantity) = some (1/2)) :
    STOCK_QUANTITY_MIN = 7 ∧ STOCK_QUANTITY_MAX = 141 ∧
    SALES_VOLUME_MIN = 14 ∧ SALES_VOLUME_MAX = 133 ∧
    ∃ tv, get_typical_values data p c = some tv ∧ tv.Stock_Quantity = 74 := by
  refine ⟨rfl, rfl, rfl, rfl, ?_⟩
  obtain ⟨sq, sv, rl, rq, itr, apc, appn, ptsr, dow, mon, hsq, hdow, hmon, heq⟩ :=
    get_typical_values_shape data p c h
  rw [hmed] at hsq
  have hsq2 : sq = 1/2 := (Option.some.inj hsq).symm
  refine ⟨_, heq, ?_⟩
  show denormalize sq STOCK_QUANTITY_MIN STOCK_QUANTITY_MAX = 74
  rw [hsq2]
  exact of_decide_eq_true (by with_unfolding_all  rfl)

/-- Claim C1 (witness): on a one-row "Cola"/"Beverages" dataset whose
StockQuantity value is 0.5, the cohort is non-empty, the median is 0.5, and
the resolver returns typical StockQuantity 74. -/
theorem c1_witness :
    (cohort [rowA] "Cola" "Beverages" ≠ []) ∧
    (∃ tv, get_typical_values [rowA] "Cola" "Beverages" = some tv ∧
      tv.Stock_Quantity = 74) :=
  ⟨of_decide_eq_true (by with_unfolding_all  rfl),
   (c1_amended [rowA] "Cola" "Beverages"
      (of_decide_eq_true (by with_unfolding_all  rfl))
      (of_decide_eq_true (by with_unfolding_all  rfl))).2.2.2.2⟩

/-- Claim C2 (counterexample): the round trip denormalize-then-normalize is
not the identity within 1e-9 on all of [min, max]: with min = 14, max = 133
and v = 14.5, the code's integer-truncating denormalize maps
normalize(14.5) back to 14, an error of 0.5. -/
theorem c2_counterexample :
    (14 : ℚ) < 133 ∧ (14 : ℚ) ≤ 29/2 ∧ (29/2 : ℚ) ≤ 133 ∧
    ¬ (|((denormalize (normalize (29/2) 14 133) 14 133 : ℤ) : ℚ) - 29/2| ≤
        1/1000000000) :=
  of_decide_eq_true (by with_unfolding_all  rfl)

/-- Claim C2 (amended): for every min < max the pair is inverse up to the
integer truncation in denormalize: denormalize∘normalize is the exact
identity on integer values of [min, max] (indeed all integers), and for
0 ≤ min and any u in [0, 1], normalize(denormalize(u)) is within
1/(max-min) of u. -/
theorem c2_amended (mn mx : ℚ) (h : mn < mx) :
    (∀ n : ℤ, denormalize (normalize (n : ℚ) mn mx) mn mx = n) ∧
    (0 ≤ mn → ∀ u : ℚ, 0 ≤ u → u ≤ 1 →
      |normalize ((denormalize u mn mx : ℤ) : ℚ) mn mx - u| < 1 / (mx - mn)) := by
  have hpos : (0:ℚ) < mx - mn := sub_pos.mpr h
  have hne : mx - mn ≠ 0 := ne_of_gt hpos
  constructor
  · intro n
    have h1 : normalize (n : ℚ) mn mx * (mx - mn) + mn = (n : ℚ) := by
      unfold normalize
      field_simp
    unfold denormalize
    rw [h1]
    unfold pyInt
    by_cases hn : (0:ℚ) ≤ (n:ℚ)
    · rw [if_pos hn, Int.floor_intCast]
    · rw [if_neg hn, Int.ceil_intCast]
  · intro hmn u hu0 hu1
    have hx0 : (0:ℚ) ≤ u * (mx - mn) + mn := by
      have := mul_nonneg hu0 (le_of_lt hpos)
      linarith
    have hden : denormalize u mn mx = ⌊u * (mx - mn) + mn⌋ := by
      unfold denormalize pyInt
      rw [if_pos hx0]
    rw [hden]
    set x := u * (mx - mn) + mn with hxdef
    have hu : u = (x - mn) / (mx - mn) := by
      rw [hxdef]
      field_simp
    have key : normalize ((⌊x⌋ : ℤ) : ℚ) mn mx - u = (((⌊x⌋ : ℤ) : ℚ) - x) / (mx - mn) := by
      unfold normalize
      rw [hu, div_sub_div_same]
      congr 1
      ring
    rw [key, abs_div, abs_of_pos hpos]
    have hfl : ((⌊x⌋ : ℤ) : ℚ) ≤ x := Int.floor_le x
    have hfl2 : x < ⌊x⌋ + 1 := Int.lt_floor_add_one x
    have habs : |((⌊x⌋ : ℤ) : ℚ) - x| < 1 := by
      rw [abs_sub_comm, abs_of_nonneg (by linarith)]
      linarith
    exact div_lt_div_of_pos_right habs hpos

/-- Claim C2 (witness): at min = 14, max = 133 the amended round-trip facts
hold for the integer 73 and for u = 0.5. -/
theorem c2_witness :
    denormalize (normalize ((73 : ℤ) : ℚ) 14 133) 14 133 = 73 ∧
    |normalize ((denormalize (1/2) 14 133 : ℤ) : ℚ) 14 133 - 1/2| <
      1 / ((133 : ℚ) - 14) :=
  ⟨(c2_amended 14 133 (by norm_num)).1 73,
   (c2_amended 14 133 (by norm_num)).2 (by norm_num) (1/2) (by norm_num)
     (by norm_num)⟩

/-- Claim C3 (code behavior at the failing input): on a dataset whose only
row has category "Dairy", resolving product "Cola" in category "Beverages"
gives an empty category filter and `get_typical_values` has no defined
result (pandas yields NaN aggregates and `int(NaN)`/`mode()[0]` raise) —
no explicit EmptyCohort error is surfaced by the code. -/
theorem c3_empty_cohort_behavior :
    catFilter [rowC] "Beverages" = [] ∧
    exactFilter [rowC] "Cola" "Beverages" = [] ∧
    get_typical_values [rowC] "Cola" "Beverages" = none :=
  of_decide_eq_true (by with_unfolding_all  rfl)

/-- Claim C4: `get_typical_values` filters rows matching both product name
and category exactly; exactly when that set is empty it falls back to the
category-only filter; and whenever the resulting cohort is non-empty it
returns a TypicalValues record (all ten aggregates defined). -/
theorem c4_resolver_contract (data : List Row) (p c : String) :
    (∀ r : Row, r ∈ exactFilter data p c ↔
      r ∈ data ∧ r.Product_Name = p ∧ r.Category = c) ∧
    (exactFilter data p c ≠ [] → cohort data p c = exactFilter data p c) ∧
    (exactFilter data p c = [] → cohort data p c = catFilter data c) ∧
    (cohort data p c ≠ [] → ∃ tv, get_typical_values data p c = some tv) := by
  refine ⟨?_, ?_, ?_, ?_⟩
  · intro r
    simp [exactFilter, List.mem_filter, and_assoc]
  · intro hne
    rw [cohort_eq, if_neg]
    simpa [List.length_eq_zero] using hne
  · intro he
    rw [cohort_eq, if_pos]
    simp [he]
  · intro hne
    obtain ⟨sq, sv, rl, rq, itr, apc, appn, ptsr, dow, mon, _, _, _, heq⟩ :=
      get_typical_values_shape data p c hne
    exact ⟨_, heq⟩

/-- Claim C4 (witness): on a one-row matching dataset the exact filter is
non-empty, the cohort equals it, and a TypicalValues record is returned. -/
theorem c4_witness :
    cohort [rowA] "Cola" "Beverages" = exactFilter [rowA] "Cola" "Beverages" ∧
    (∃ tv, get_typical_values [rowA] "Cola" "Beverages" = some tv) := by
  have h := c4_resolver_contract [rowA] "Cola" "Beverages"
  have hne : exactFilter [rowA] "Cola" "Beverages" ≠ [] :=
    of_decide_eq_true (by with_unfolding_all  rfl)
  have hco : cohort [rowA] "Cola" "Beverages" ≠ [] :=
    of_decide_eq_true (by with_unfolding_all  rfl)
  exact ⟨h.2.1 hne, h.2.2.2 hco⟩

/-- Claim C5 (counterexample): on a cohort whose Day_of_Week column is
[0.5, 0] — a tie in which 0.5 is the first-encountered value — the code
returns 0 (pandas `mode()` sorts ascending and `[0]` takes the smallest),
not the first-encountered 0.5. -/
theorem c5_counterexample :
    (cohort [rowA, rowB] "Cola" "Beverages").map Row.Day_of_Week = [1/2, 0] ∧
    ((cohort [rowA, rowB] "Cola" "Beverages").map Row.Day_of_Week).count (1/2) =
      ((cohort [rowA, rowB] "Cola" "Beverages").map Row.Day_of_Week).count 0 ∧
    (get_typical_values [rowA, rowB] "Cola" "Beverages").map
      TypicalValues.Day_of_Week = some 0 ∧
    (0 : ℚ) ≠ 1/2 :=
  of_decide_eq_true (by with_unfolding_all  rfl)

/-- Claim C5 (amended): for every non-empty cohort the typical DayOfWeek
and Month are most-frequent values of the cohort, and when several values
are tied for most frequent, the SMALLEST value is chosen (pandas
`mode()[0]`), not the first-encountered one. -/
theorem c5_amended (data : List Row) (p c : String) (h : cohort data p c ≠ []) :
    ∃ tv, get_typical_values data p c = some tv ∧
      tv.Day_of_Week ∈ (cohort data p c).map Row.Day_of_Week ∧
      (∀ y ∈ (cohort data p c).map Row.Day_of_Week,
        ((cohort data p c).map Row.Day_of_Week).count y ≤
          ((cohort data p c).map Row.Day_of_Week).count tv.Day_of_Week) ∧
      (∀ y ∈ (cohort data p c).map Row.Day_of_Week,
        ((cohort data p c).map Row.Day_of_Week).count y =
          ((cohort data p c).map Row.Day_of_Week).count tv.Day_of_Week →
        tv.Day_of_Week ≤ y) ∧
      tv.Month ∈ (cohort data p c).map Row.Month ∧
      (∀ y ∈ (cohort data p c).map Row.Month,
        ((cohort data p c).map Row.Month).count y ≤
          ((cohort data p c).map Row.Month).count tv.Month) ∧
      (∀ y ∈ (cohort data p c).map Row.Month,
        ((cohort data p c).map Row.Month).count y =
          ((cohort data p c).map Row.Month).count tv.Month →
        tv.Month ≤ y) := by
  obtain ⟨sq, sv, rl, rq, itr, apc, appn, ptsr, dow, mon, hsq, hdow, hmon, heq⟩ :=
    get_typical_values_shape data p c h
  obtain ⟨hdmem, hdmax, hdmin⟩ := modeVal_spec _ _ hdow
  obtain ⟨hmmem, hmmax, hmmin⟩ := modeVal_spec _ _ hmon
  exact ⟨_, heq, hdmem, hdmax, hdmin, hmmem, hmmax, hmmin⟩

/-- Claim C5 (witness): on the two-row tied cohort the resolver returns a
record whose Day_of_Week is a member of the cohort's Day_of_Week column. -/
theorem c5_witness :
    (cohort [rowA, rowB] "Cola" "Beverages" ≠ []) ∧
    (∃ tv, get_typical_values [rowA, rowB] "Cola" "Beverages" = some tv ∧
      tv.Day_of_Week ∈ (cohort [rowA, rowB] "Cola" "Beverages").map
        Row.Day_of_Week) := by
  have hco : cohort [rowA, rowB] "Cola" "Beverages" ≠ [] :=
    of_decide_eq_true (by with_unfolding_all  rfl)
  obtain ⟨tv, heq, hmem, -⟩ := c5_amended [rowA, rowB] "Cola" "Beverages" hco
  exact ⟨hco, tv, heq, hmem⟩

set_option maxRecDepth 1600 in
/-- Claim C6: when the typical value exactly equals one of the quantized
calendar anchors, the default-selection nearest-neighbor search resolves to
that anchor's index; in particular a typical Day_of_Week of exactly
0.333333 resolves to the "Среда" anchor at zero distance. -/
theorem c6_exact_anchor_default :
    (∀ k : Fin 7, default_day_idx (day_keys.getD k.val 0) = k.val) ∧
    (∀ k : Fin 12, default_month_idx (month_keys.getD k.val 0) = k.val) ∧
    weekday_labels.getD (default_day_idx (333333/1000000)) "" = "Среда" ∧
    |day_keys.getD (default_day_idx (333333/1000000)) 0 - 333333/1000000| = 0 := by
  refine ⟨of_decide_eq_true (by with_unfolding_all  rfl),
    of_decide_eq_true (by with_unfolding_all  rfl),
    of_decide_eq_true (by with_unfolding_all  rfl), ?_⟩
  have hidx : default_day_idx (333333/1000000) = 2 :=
    of_decide_eq_true (by with_unfolding_all  rfl)
  rw [hidx]
  norm_num [day_keys]

/-- Claim C7: the assembled feature record has exactly the 13 fields of the
schema (3 categorical strings, 10 numerics); StockQuantity and SalesVolume
are normalized from native units with their range constants at assembly
time, every other numeric is copied verbatim from the typical values, and
DayOfWeek/Month pass through unchanged. -/
theorem c7_feature_record_fields (pn st cat : String) (sq sv : ℤ)
    (dow mon : ℚ) (tv : TypicalValues) :
    featureNames.length = 13 ∧
    (buildFeatures pn st cat sq sv dow mon tv).Product_Name = pn ∧
    (buildFeatures pn st cat sq sv dow mon tv).Status = st ∧
    (buildFeatures pn st cat sq sv dow mon tv).Category = cat ∧
    (buildFeatures pn st cat sq sv dow mon tv).Stock_Quantity =
      normalize (sq : ℚ) STOCK_QUANTITY_MIN STOCK_QUANTITY_MAX ∧
    (buildFeatures pn st cat sq sv dow mon tv).Sales_Volume =
      normalize (sv : ℚ) SALES_VOLUME_MIN SALES_VOLUME_MAX ∧
    (buildFeatures pn st cat sq sv dow mon tv).Reorder_Level =
      tv.Reorder_Level ∧
    (buildFeatures pn st cat sq sv dow mon tv).Reorder_Quantity =
      tv.Reorder_Quantity ∧
    (buildFeatures pn st cat sq sv dow mon tv).Inventory_Turnover_Rate =
      tv.Inventory_Turnover_Rate ∧
    (buildFeatures pn st cat sq sv dow mon tv).Average_Price_Per_Category =
      tv.Average_Price_Per_Category ∧
    (buildFeatures pn st cat sq sv dow mon tv).Average_Price_Per_Product_Name =
      tv.Average_Price_Per_Product_Name ∧
    (buildFeatures pn st cat sq sv dow mon tv).Price_to_Sales_Ratio =
      tv.Price_to_Sales_Ratio ∧
    (buildFeatures pn st cat sq sv dow mon tv).Day_of_Week = dow ∧
    (buildFeatures pn st cat sq sv dow mon tv).Month = mon :=
  ⟨rfl, rfl, rfl, rfl, rfl, rfl, rfl, rfl, rfl, rfl, rfl, rfl, rfl, rfl⟩

/-- Claim C8: exactly the three fields ProductName, Status and Category are
marked categorical before prediction: filtering the 13 feature names by
membership in `cat_features` yields exactly those three, the remaining 10
are not marked, and every marked name is a schema field. -/
theorem c8_categorical_marking :
    cat_features.length = 3 ∧
    featureNames.filter (fun s => cat_features.contains s) =
      ["Product_Name", "Status", "Category"] ∧
    (featureNames.filter (fun s => !(cat_features.contains s))).length = 10 ∧
    cat_features.all (fun s => featureNames.contains s) = true :=
  of_decide_eq_true (by with_unfolding_all  rfl)

/-- Claim C9 (counterexample): the calendar keys are not exactly k/(n-1):
the second weekday key is 0.166667 ≠ 1/6 and the second month key is
0.090909 ≠ 1/11 (the dictionary literals are 6-decimal roundings). -/
theorem c9_counterexample :
    day_keys.getD 1 0 = 166667/1000000 ∧ (166667/1000000 : ℚ) ≠ 1/6 ∧
    month_keys.getD 1 0 = 90909/1000000 ∧ (90909/1000000 : ℚ) ≠ 1/11 := by
  refine ⟨?_, ?_, ?_, ?_⟩ <;> norm_num [day_keys, month_keys]

/-- Claim C9 (amended): each calendar table is a bijection of 7 (resp. 12)
distinct keys with 7 (resp. 12) distinct labels; the keys are strictly
ascending and each equals the 6-decimal rounding of k/6 (resp. k/11),
within 5e-7 of the exact evenly spaced value but not exactly equal. -/
theorem c9_amended :
    day_keys.length = 7 ∧ weekday_labels.length = 7 ∧
    month_keys.length = 12 ∧ month_labels.length = 12 ∧
    day_keys.Nodup ∧ weekday_labels.Nodup ∧
    month_keys.Nodup ∧ month_labels.Nodup ∧
    day_keys.Sorted (· < ·) ∧ month_keys.Sorted (· < ·) ∧
    (∀ k : Fin 7, |day_keys.getD k.val 0 - (k.val : ℚ) / 6| ≤ 1/2000000) ∧
    (∀ k : Fin 12, |month_keys.getD k.val 0 - (k.val : ℚ) / 11| ≤ 1/2000000) := by
  refine ⟨rfl, rfl, rfl, rfl, ?_,
    of_decide_eq_true (by with_unfolding_all  rfl), ?_,
    of_decide_eq_true (by with_unfolding_all  rfl), ?_, ?_, ?_, ?_⟩
  · norm_num [day_keys, List.nodup_cons, List.mem_cons]
  · norm_num [month_keys, List.nodup_cons, List.mem_cons]
  · norm_num [day_keys, List.sorted_cons]
  · norm_num [month_keys, List.sorted_cons]
  · intro k
    fin_cases k <;> norm_num [day_keys, abs_le]
  · intro k
    fin_cases k <;> norm_num [month_keys, abs_le]

/-- Claim C10: the nearest-anchor default selection attains the minimum
distance, and on any tie it picks the anchor at the lowest index, which by
the ascending key order is the smaller quantized value. -/
theorem c10_tie_smallest (t : ℚ) :
    (∀ j : Fin 7,
      |day_keys.getD (default_day_idx t) 0 - t| ≤ |day_keys.getD j.val 0 - t| ∧
      (|day_keys.getD j.val 0 - t| = |day_keys.getD (default_day_idx t) 0 - t| →
        day_keys.getD (default_day_idx t) 0 ≤ day_keys.getD j.val 0)) ∧
    (∀ j : Fin 12,
      |month_keys.getD (default_month_idx t) 0 - t| ≤
        |month_keys.getD j.val 0 - t| ∧
      (|month_keys.getD j.val 0 - t| =
          |month_keys.getD (default_month_idx t) 0 - t| →
        month_keys.getD (default_month_idx t) 0 ≤ month_keys.getD j.val 0)) := by
  have hdmono : ∀ a b : Fin 7, a.val ≤ b.val →
      day_keys.getD a.val 0 ≤ day_keys.getD b.val 0 :=
    of_decide_eq_true (by with_unfolding_all  rfl)
  have hmmono : ∀ a b : Fin 12, a.val ≤ b.val →
      month_keys.getD a.val 0 ≤ month_keys.getD b.val 0 :=
    of_decide_eq_true (by with_unfolding_all  rfl)
  constructor
  · intro j
    have hlen : day_keys.length = 7 := rfl
    refine nearest_first_spec day_keys t (by simp [day_keys]) ?_ j.val ?_
    · intro a b hab hb
      have hb7 : b < 7 := by rw [← hlen]; exact hb
      exact hdmono ⟨a, lt_of_le_of_lt hab hb7⟩ ⟨b, hb7⟩ hab
    · rw [hlen]
      exact j.isLt
  · intro j
    have hlen : month_keys.length = 12 := rfl
    refine nearest_first_spec month_keys t (by simp [month_keys]) ?_ j.val ?_
    · intro a b hab hb
      have hb12 : b < 12 := by rw [← hlen]; exact hb
      exact hmmono ⟨a, lt_of_le_of_lt hab hb12⟩ ⟨b, hb12⟩ hab
    · rw [hlen]
      exact j.isLt

/-- Claim C10 (witness): at the exact midpoint of the first two weekday
anchors the two distances tie and the selection picks the smaller anchor. -/
theorem c10_witness :
    |day_keys.getD 1 0 - 166667/2000000| =
      |day_keys.getD (default_day_idx (166667/2000000)) 0 - 166667/2000000| ∧
    day_keys.getD (default_day_idx (166667/2000000)) 0 ≤ day_keys.getD 1 0 := by
  have hidx : default_day_idx (166667/2000000) = 0 :=
    of_decide_eq_true (by with_unfolding_all  rfl)
  have h := (c10_tie_smallest (166667/2000000)).1 ⟨1, by omega⟩
  have htie : |day_keys.getD 1 0 - 166667/2000000| =
      |day_keys.getD (default_day_idx (166667/2000000)) 0 - 166667/2000000| := by
    rw [hidx]
    norm_num [day_keys]
  exact ⟨htie, h.2 htie⟩

end Streaml
